import Mathlib

set_option maxHeartbeats 1000000

/-!
Verification of the method-boundary extraction core of `parse_java_code.py`.

The Python functions `_get_method_body`, `_get_method_declaration`,
`remove_illegal_characters`, and the per-cell content transformation of
`write_to_csv` / `write_to_excel` are embedded as executable Lean functions
over `List Char` lines (the result of `java_code.splitlines()`), and the
specified properties are settled against them.
-/

/-- Python `str.isspace` restricted to the ASCII whitespace characters that
`str.strip()` removes: space, tab, LF, CR, VT, FF. -/
def pyIsSpace (c : Char) : Bool :=
  c = ' ' || c = '\t' || c = '\n' || c = '\r' || c = '\x0b' || c = '\x0c'

/-- Python `str.strip()`: remove leading and trailing whitespace. -/
def pyStrip (s : List Char) : List Char :=
  ((s.dropWhile pyIsSpace).reverse.dropWhile pyIsSpace).reverse

/-- The code's CJK test (`re.search(r'[一-鿿]', ...)`, line 105):
some character lies in U+4E00..U+9FFF. -/
def hasCJK (s : List Char) : Bool :=
  s.any (fun c => decide (0x4e00 ≤ c.toNat) && decide (c.toNat ≤ 0x9fff))

/-- Following the spec's words only (glossary: "CJK character: a character in
the Chinese/Japanese/Korean Unicode ranges"): CJK Unified Ideographs,
Hiragana/Katakana, or Hangul syllables.  Used to compare the spec's notion
with the code's `hasCJK`. -/
def cjkSpecChar (c : Char) : Bool :=
  (decide (0x4e00 ≤ c.toNat) && decide (c.toNat ≤ 0x9fff)) ||
  (decide (0x3040 ≤ c.toNat) && decide (c.toNat ≤ 0x30ff)) ||
  (decide (0xac00 ≤ c.toNat) && decide (c.toNat ≤ 0xd7af))

/-- Python `line.count('{') - line.count('}')` (line 109). -/
def braceDelta (s : List Char) : Int :=
  (s.count '\x7b' : Int) - (s.count '\x7d' : Int)

/-- The two-character block-comment opener used by the code. -/
def slashStar : List Char := ['/', '*']

/-- The two-character block-comment closer used by the code. -/
def starSlash : List Char := ['*', '/']

/-- The single-line comment marker used by the code. -/
def slashSlash : List Char := ['/', '/']

/-- Index of the first occurrence of `pat` as a contiguous substring of `s`
(Python `s.index(pat)` / `pat in s`). -/
def findSub (pat : List Char) : List Char → Option Nat
  | [] => if pat.isEmpty then some 0 else none
  | c :: t =>
    if pat.isPrefixOf (c :: t) then some 0
    else (findSub pat t).map (fun n => n + 1)

/-- Lines 93-95 of the source: if `'/*' in line`, set the in-comment flag and
truncate the line to the text before the opener. -/
def truncOpen (inC : Bool) (line : List Char) : List Char × Bool :=
  match findSub slashStar line with
  | some i => (line.take i, true)
  | none => (line, inC)

/-- Lines 97-99 of the source: if `'*/' in line` (the possibly already
truncated line), clear the in-comment flag and truncate the line to the text
after the closer.  Note the Python code performs this regardless of the
current flag value. -/
def truncClose (st : List Char × Bool) : List Char × Bool :=
  match findSub starSlash st.1 with
  | some j => (st.1.drop (j + 2), false)
  | none => st

/-- Lines 101-109 of the source: when the flag is clear, keep a `//` line iff
its comment text passes `hasCJK` (uncounted), else keep a non-blank line and
count its brace delta.  Each kept line is tagged with whether its braces were
counted. -/
def keepStep (inC : Bool) (line : List Char) : List (List Char × Bool) :=
  if inC then []
  else if slashSlash.isPrefixOf (pyStrip line) then
    if hasCJK (pyStrip ((pyStrip line).drop 2)) then [(line, false)] else []
  else if pyStrip line ≠ [] then [(line, true)] else []

/-- Lines 111-119 of the source: the special case for a line still containing
both `'/*'` and `'*/'` with the opener first; strips the inline comment and
keeps (and counts) the remainder if non-blank. -/
def deadStep (line : List Char) : List (List Char × Bool) :=
  match findSub slashStar line, findSub starSlash line with
  | some cs, some ce =>
    if cs < ce then
      let l3 := line.take cs ++ line.drop (ce + 2)
      if pyStrip l3 ≠ [] then [(l3, true)] else []
    else []
  | _, _ => []

/-- One iteration of the source's scan over a started line (lines 92-119):
comment truncation, keep/count decision, then the inline special case.
Returns the kept (tagged) lines of this iteration and the new flag. -/
def processLine (inC : Bool) (line : List Char) : List (List Char × Bool) × Bool :=
  let st := truncClose (truncOpen inC line)
  (keepStep st.2 st.1 ++ deadStep st.1, st.2)

/-- Total brace delta contributed to `brace_count` by the kept lines of one
or more iterations: only counted (non-comment) lines contribute. -/
def lineDelta (ks : List (List Char × Bool)) : Int :=
  (ks.map (fun p => if p.2 then braceDelta p.1 else 0)).sum

/-- Result of the body-extraction scan: the kept tagged lines, whether the
scan stopped via the `brace_count == 0` check (line 121-122), the final value
of `brace_count`, and how many input lines were read. -/
structure BodyScanResult where
  kept : List (List Char × Bool)
  stopped : Bool
  finalCount : Int
  consumed : Nat
deriving DecidableEq

/-- The loop of `_get_method_body` (lines 87-122): `started` latches when a
line contains `'{'`; started lines are processed by `processLine`, the brace
counter is updated, and the loop breaks as soon as the counter is zero after
a started line. -/
def bodyLoop : List (List Char) → Bool → Bool → Int → BodyScanResult
  | [], _, _, count => ⟨[], false, count, 0⟩
  | line :: rest, started, inC, count =>
    if started || line.contains '\x7b' then
      let pr := processLine inC line
      let count' := count + lineDelta pr.1
      if count' = 0 then ⟨pr.1, true, count', 1⟩
      else
        let r := bodyLoop rest true pr.2 count'
        ⟨pr.1 ++ r.kept, r.stopped, r.finalCount, r.consumed + 1⟩
    else
      let r := bodyLoop rest false inC count
      ⟨r.kept, r.stopped, r.finalCount, r.consumed + 1⟩

/-- Line 78 / 129: `method_node.position.line - 1 if method_node.position else 0`
(positions are 1-based). -/
def startLineIdx (pos : Option (Nat × Nat)) : Nat :=
  match pos with
  | some p => p.1 - 1
  | none => 0

/-- Line 130: `method_node.position.column - 1 if method_node.position else 0`. -/
def startColIdx (pos : Option (Nat × Nat)) : Nat :=
  match pos with
  | some p => p.2 - 1
  | none => 0

/-- Python `'\n'.join(lines)`. -/
def joinNL (ls : List (List Char)) : List Char := List.intercalate ['\n'] ls

/-- `_get_method_body` (lines 75-124) on the already split source lines:
scan from the start line, join the kept lines with newlines. -/
def getMethodBody (lines : List (List Char)) (pos : Option (Nat × Nat)) : List Char :=
  joinNL (((bodyLoop (lines.drop (startLineIdx pos)) false false 0).kept).map Prod.fst)

/-- The character-matching loop of `_get_method_declaration` (lines 139-153).
`Except.error ()` models the `IndexError` Python raises on `lines[end_line]`
when `end_line` is out of range at the top of an iteration. -/
def declScanLoop (lines : List (List Char)) (decl : List Char) (eL eC i : Nat) :
    Except Unit (Nat × Nat) :=
  if hi : i < decl.length then
    if hL : eL < lines.length then
      if hc : (lines.get ⟨eL, hL⟩).length ≤ eC then
        if lines.length ≤ eL + 1 then Except.ok (eL + 1, 0)
        else declScanLoop lines decl (eL + 1) 0 i
      else
        if (lines.get ⟨eL, hL⟩).get ⟨eC, by omega⟩ = decl.get ⟨i, hi⟩ then
          declScanLoop lines decl eL (eC + 1) (i + 1)
        else declScanLoop lines decl eL (eC + 1) i
    else Except.error ()
  else Except.ok (eL, eC)
termination_by (decl.length - i, lines.length - eL, ((lines.get? eL).getD []).length - eC)
decreasing_by
  · apply Prod.Lex.right
    apply Prod.Lex.left
    omega
  · apply Prod.Lex.left
    omega
  · apply Prod.Lex.right
    apply Prod.Lex.right
    have hlen : (lines.get? eL).getD [] = lines.get ⟨eL, hL⟩ := by
      simp [List.get?_eq_getElem?, List.getElem?_eq_getElem hL, List.get_eq_getElem]
    rw [hlen]
    omega

/-- One row of the reconstruction loop (lines 155-165): the start row keeps
its tail from the start column, the end row keeps its head up to the end
column (with the Python bounds guards), other rows are kept whole. -/
def reconRow (lines : List (List Char)) (sL sC eL eC i : Nat) : Option (List Char) :=
  if i = sL then (lines.get? i).map (fun l => l.drop sC)
  else if i = eL then
    (lines.get? i).bind (fun l => if eC ≤ l.length then some (l.take eC) else none)
  else lines.get? i

/-- The reconstruction loop `for i in range(start_line, end_line + 1)`
(lines 155-165). -/
def reconstructLines (lines : List (List Char)) (sL sC eL eC : Nat) : List (List Char) :=
  (List.range' sL (eL + 1 - sL)).filterMap (reconRow lines sL sC eL eC)

/-- `_get_method_declaration` (lines 127-167) on the split source lines;
`declStr` is the parser's rendering `str(method_node)` before the `.strip()`
the code applies to it. -/
def getMethodDeclaration (lines : List (List Char)) (pos : Option (Nat × Nat))
    (declStr : List Char) : Except Unit (List Char) :=
  match declScanLoop lines (pyStrip declStr) (startLineIdx pos) (startColIdx pos) 0 with
  | Except.error e => Except.error e
  | Except.ok p =>
    Except.ok (joinNL (reconstructLines lines (startLineIdx pos) (startColIdx pos) p.1 p.2))

/-- Membership in the character class of `remove_illegal_characters`
(line 172): `[\x00-\x08\x0b\x0c\x0e-\x1f\x7f]`. -/
def isIllegalChar (c : Char) : Bool :=
  decide (c.toNat ≤ 0x08) || decide (c.toNat = 0x0b) || decide (c.toNat = 0x0c) ||
  (decide (0x0e ≤ c.toNat) && decide (c.toNat ≤ 0x1f)) || decide (c.toNat = 0x7f)

/-- `remove_illegal_characters` (lines 170-172): delete every character of
the class above. -/
def remove_illegal_characters (s : List Char) : List Char :=
  s.filter (fun c => !(isIllegalChar c))

/-- The header cell written by both writers (`'分段内容'`). -/
def segHeader : List Char := "分段内容".data

/-- The cell contents written by `write_to_csv` (lines 198-205): the header
row followed by one cleaned row per text block. -/
def csvRows (results : List (List Char)) : List (List Char) :=
  segHeader :: results.map remove_illegal_characters

/-- The column-A cell contents written by `write_to_excel` (lines 175-195):
the header cell followed by one cleaned cell per text block. -/
def excelCells (results : List (List Char)) : List (List Char) :=
  segHeader :: results.map remove_illegal_characters

/-- Following the spec's words only: "control characters in the range
`\x00`-`\x1F` (excluding normal whitespace) and `\x7F`", with normal
whitespace read as tab, line feed and carriage return. -/
def strippedSpec (c : Char) : Bool :=
  (decide (c.toNat ≤ 0x1f) &&
    !(decide (c.toNat = 0x09) || decide (c.toNat = 0x0a) || decide (c.toNat = 0x0d))) ||
  decide (c.toNat = 0x7f)

/-! ## Lemmas about substring search -/

theorem findSub_some_prefix {pat : List Char} :
    ∀ {s : List Char} {i : Nat}, findSub pat s = some i →
      pat.isPrefixOf (s.drop i) = true := by
  intro s
  induction s with
  | nil =>
    intro i h
    unfold findSub at h
    by_cases hp : pat.isEmpty
    · rw [if_pos hp] at h
      cases h
      rw [List.isEmpty_iff] at hp
      subst hp
      rfl
    · rw [if_neg hp] at h
      cases h
  | cons c t ih =>
    intro i h
    unfold findSub at h
    by_cases hp : pat.isPrefixOf (c :: t) = true
    · rw [if_pos hp] at h
      cases h
      simpa using hp
    · rw [if_neg hp] at h
      rw [Option.map_eq_some'] at h
      obtain ⟨j, hj, hi⟩ := h
      subst hi
      simpa using ih hj

theorem findSub_some_min {pat : List Char} :
    ∀ {s : List Char} {i : Nat}, findSub pat s = some i →
      ∀ j, j < i → pat.isPrefixOf (s.drop j) = false := by
  intro s
  induction s with
  | nil =>
    intro i h j hj
    unfold findSub at h
    by_cases hp : pat.isEmpty
    · rw [if_pos hp] at h
      cases h
      omega
    · rw [if_neg hp] at h
      cases h
  | cons c t ih =>
    intro i h j hj
    unfold findSub at h
    by_cases hp : pat.isPrefixOf (c :: t) = true
    · rw [if_pos hp] at h
      cases h
      omega
    · rw [if_neg hp] at h
      rw [Option.map_eq_some'] at h
      obtain ⟨k, hk, hi⟩ := h
      subst hi
      cases j with
      | zero =>
        simpa using Bool.not_eq_true _ ▸ hp
      | succ j' =>
        simpa using ih hk j' (by omega)

theorem findSub_none_prefix {pat : List Char} :
    ∀ {s : List Char}, findSub pat s = none →
      ∀ j, pat.isPrefixOf (s.drop j) = false := by
  intro s
  induction s with
  | nil =>
    intro h j
    unfold findSub at h
    by_cases hp : pat.isEmpty
    · rw [if_pos hp] at h
      cases h
    · rw [if_neg hp] at h
      cases pat with
      | nil => simp at hp
      | cons a u => simp [List.drop_nil, List.isPrefixOf]
  | cons c t ih =>
    intro h j
    unfold findSub at h
    by_cases hp : pat.isPrefixOf (c :: t) = true
    · rw [if_pos hp] at h
      cases h
    · rw [if_neg hp] at h
      have ht : findSub pat t = none := by
        cases hft : findSub pat t with
        | none => rfl
        | some k => rw [hft] at h; simp at h
      cases j with
      | zero =>
        simpa using Bool.not_eq_true _ ▸ hp
      | succ j' =>
        simpa using ih ht j'

theorem findSub_drop_none {pat s : List Char} (h : findSub pat s = none) (n : Nat) :
    findSub pat (s.drop n) = none := by
  cases h2 : findSub pat (s.drop n) with
  | none => rfl
  | some k =>
    have hpre := findSub_some_prefix h2
    rw [List.drop_drop] at hpre
    have hfalse := findSub_none_prefix h (n + k)
    rw [hfalse] at hpre
    cases hpre

theorem findSub_take_none {pat s : List Char} {i : Nat} (hp : pat ≠ [])
    (h : findSub pat s = some i) : findSub pat (s.take i) = none := by
  cases h2 : findSub pat (s.take i) with
  | none => rfl
  | some k =>
    have hpre := findSub_some_prefix h2
    by_cases hk : k < i
    · rw [List.drop_take] at hpre
      have hp1 : pat <+: List.take (i - k) (s.drop k) := List.isPrefixOf_iff_prefix.mp hpre
      have hp2 : pat <+: s.drop k := hp1.trans (List.take_prefix _ _)
      have hmin := findSub_some_min h k hk
      rw [List.isPrefixOf_iff_prefix.mpr hp2] at hmin
      cases hmin
    · have hnil : (s.take i).drop k = [] := by
        apply List.drop_eq_nil_of_le
        have := s.length_take i
        omega
      rw [hnil] at hpre
      cases pat with
      | nil => exact absurd rfl hp
      | cons a u => simp [List.isPrefixOf] at hpre

/-! ## The inline special case (source lines 111-119) is unreachable -/

theorem truncOpen_no_open (inC : Bool) (line : List Char) :
    findSub slashStar (truncOpen inC line).1 = none := by
  unfold truncOpen
  cases h : findSub slashStar line with
  | none => simpa using h
  | some i => simpa using findSub_take_none (by decide) h

theorem truncClose_no_open (st : List Char × Bool) (h : findSub slashStar st.1 = none) :
    findSub slashStar (truncClose st).1 = none := by
  unfold truncClose
  cases h2 : findSub starSlash st.1 with
  | none => simpa using h
  | some j => simpa using findSub_drop_none h (j + 2)

theorem deadStep_eq_nil {line : List Char} (h : findSub slashStar line = none) :
    deadStep line = [] := by
  cases h2 : findSub starSlash line with
  | none => simp [deadStep, h, h2]
  | some j => simp [deadStep, h, h2]

theorem processLine_eq_keep (inC : Bool) (line : List Char) :
    processLine inC line =
      (keepStep (truncClose (truncOpen inC line)).2 (truncClose (truncOpen inC line)).1,
        (truncClose (truncOpen inC line)).2) := by
  simp only [processLine]
  rw [deadStep_eq_nil (truncClose_no_open _ (truncOpen_no_open inC line)), List.append_nil]

/-! ## Invariants of the body-extraction scan -/

theorem lineDelta_append (a b : List (List Char × Bool)) :
    lineDelta (a ++ b) = lineDelta a + lineDelta b := by
  simp [lineDelta]

theorem bodyLoop_finalCount (lines : List (List Char)) :
    ∀ started inC count, (bodyLoop lines started inC count).finalCount =
      count + lineDelta (bodyLoop lines started inC count).kept := by
  induction lines with
  | nil =>
    intro started inC count
    simp [bodyLoop, lineDelta]
  | cons line rest ih =>
    intro started inC count
    by_cases hs : (started || line.contains '\x7b') = true
    · by_cases hz : count + lineDelta (processLine inC line).1 = 0
      · simp only [bodyLoop, if_pos hs, if_pos hz]
      · simp only [bodyLoop, if_pos hs, if_neg hz]
        rw [ih, lineDelta_append]
        ring
    · simp only [bodyLoop, if_neg hs]
      exact ih false inC count

theorem bodyLoop_stopped_zero (lines : List (List Char)) :
    ∀ started inC count, (bodyLoop lines started inC count).stopped = true →
      (bodyLoop lines started inC count).finalCount = 0 := by
  induction lines with
  | nil =>
    intro started inC count h
    simp [bodyLoop] at h
  | cons line rest ih =>
    intro started inC count h
    by_cases hs : (started || line.contains '\x7b') = true
    · by_cases hz : count + lineDelta (processLine inC line).1 = 0
      · simp only [bodyLoop, if_pos hs, if_pos hz]
        exact hz
      · simp only [bodyLoop, if_pos hs, if_neg hz] at h ⊢
        exact ih _ _ _ h
    · simp only [bodyLoop, if_neg hs] at h ⊢
      exact ih _ _ _ h

theorem bodyLoop_consumed_le (lines : List (List Char)) :
    ∀ started inC count, (bodyLoop lines started inC count).consumed ≤ lines.length := by
  induction lines with
  | nil =>
    intro started inC count
    simp [bodyLoop]
  | cons line rest ih =>
    intro started inC count
    by_cases hs : (started || line.contains '\x7b') = true
    · by_cases hz : count + lineDelta (processLine inC line).1 = 0
      · simp only [bodyLoop, if_pos hs, if_pos hz, List.length_cons]
        omega
      · simp only [bodyLoop, if_pos hs, if_neg hz, List.length_cons]
        have := ih true (processLine inC line).2 (count + lineDelta (processLine inC line).1)
        omega
    · simp only [bodyLoop, if_neg hs, List.length_cons]
      have := ih false inC count
      omega

theorem bodyLoop_no_open_brace (lines : List (List Char))
    (h : ∀ l ∈ lines, l.contains '\x7b' = false) :
    ∀ inC count, bodyLoop lines false inC count = ⟨[], false, count, lines.length⟩ := by
  induction lines with
  | nil =>
    intro inC count
    simp [bodyLoop]
  | cons line rest ih =>
    intro inC count
    have h1 : line.contains '\x7b' = false := h line (by simp)
    have h2 : ∀ l ∈ rest, l.contains '\x7b' = false := fun l hl => h l (by simp [hl])
    have h1' : ¬ ((false || line.contains '\x7b') = true) := by
      rw [Bool.false_or, h1]
      simp
    simp only [bodyLoop, if_neg h1']
    rw [ih h2 inC count]
    simp [List.length_cons]

/-! ## Lemmas about the declaration scan -/

theorem declScanLoop_ok (lines : List (List Char)) (decl : List Char) (eL eC i : Nat) :
    eL < lines.length → ∃ p, declScanLoop lines decl eL eC i = Except.ok p := by
  induction eL, eC, i using declScanLoop.induct lines decl with
  | case1 eL eC i hi hL hc hb =>
    intro h
    rw [declScanLoop]
    simp only [dif_pos hi, dif_pos hL, dif_pos hc, if_pos hb]
    exact ⟨_, rfl⟩
  | case2 eL eC i hi hL hc hb ih =>
    intro h
    rw [declScanLoop]
    simp only [dif_pos hi, dif_pos hL, dif_pos hc, if_neg hb]
    exact ih (by omega)
  | case3 eL eC i hi hL hc heq ih =>
    intro h
    rw [declScanLoop]
    simp only [dif_pos hi, dif_pos hL, dif_neg hc, if_pos heq]
    exact ih hL
  | case4 eL eC i hi hL hc heq ih =>
    intro h
    rw [declScanLoop]
    simp only [dif_pos hi, dif_pos hL, dif_neg hc, if_neg heq]
    exact ih hL
  | case5 eL eC i hi hL =>
    intro h
    exact absurd h hL
  | case6 eL eC i hi =>
    intro h
    rw [declScanLoop]
    simp only [dif_neg hi]
    exact ⟨_, rfl⟩

theorem declScanLoop_mono (lines : List (List Char)) (decl : List Char) (eL eC i : Nat) :
    ∀ rL rC, declScanLoop lines decl eL eC i = Except.ok (rL, rC) →
      eL < rL ∨ (eL = rL ∧ eC ≤ rC) := by
  induction eL, eC, i using declScanLoop.induct lines decl with
  | case1 eL eC i hi hL hc hb =>
    intro rL rC h
    rw [declScanLoop] at h
    simp only [dif_pos hi, dif_pos hL, dif_pos hc, if_pos hb, Except.ok.injEq, Prod.mk.injEq] at h
    omega
  | case2 eL eC i hi hL hc hb ih =>
    intro rL rC h
    rw [declScanLoop] at h
    simp only [dif_pos hi, dif_pos hL, dif_pos hc, if_neg hb] at h
    have := ih rL rC h
    omega
  | case3 eL eC i hi hL hc heq ih =>
    intro rL rC h
    rw [declScanLoop] at h
    simp only [dif_pos hi, dif_pos hL, dif_neg hc, if_pos heq] at h
    have := ih rL rC h
    omega
  | case4 eL eC i hi hL hc heq ih =>
    intro rL rC h
    rw [declScanLoop] at h
    simp only [dif_pos hi, dif_pos hL, dif_neg hc, if_neg heq] at h
    have := ih rL rC h
    omega
  | case5 eL eC i hi hL =>
    intro rL rC h
    rw [declScanLoop] at h
    simp only [dif_pos hi, dif_neg hL] at h
    exact Except.noConfusion h
  | case6 eL eC i hi =>
    intro rL rC h
    rw [declScanLoop] at h
    simp only [dif_neg hi, Except.ok.injEq, Prod.mk.injEq] at h
    omega

/-! ## Lemmas about the declaration reconstruction -/

theorem getD_eq_get (lines : List (List Char)) (i : Nat) (h : i < lines.length) :
    lines.getD i [] = lines.get ⟨i, h⟩ := by
  simp [List.getD, List.get?_eq_getElem?, List.getElem?_eq_getElem h, List.get_eq_getElem]

theorem reconRow_mid (lines : List (List Char)) (sL sC eL eC i : Nat)
    (h1 : sL < i) (h2 : i < eL) : reconRow lines sL sC eL eC i = lines.get? i := by
  unfold reconRow
  rw [if_neg (by omega), if_neg (by omega)]

theorem range'_filterMap_mid (lines : List (List Char)) (sL sC eL eC : Nat) :
    ∀ n j, sL < j → j + n ≤ eL → j + n ≤ lines.length →
      (List.range' j n).filterMap (reconRow lines sL sC eL eC) = (lines.drop j).take n := by
  intro n
  induction n with
  | zero =>
    intro j _ _ _
    simp
  | succ n ih =>
    intro j hj hje hjl
    rw [List.range'_succ, List.filterMap_cons]
    have hjlt : j < lines.length := by omega
    rw [reconRow_mid lines sL sC eL eC j hj (by omega), List.get?_eq_getElem?,
      List.getElem?_eq_getElem hjlt]
    rw [ih (j + 1) (by omega) (by omega) (by omega)]
    rw [List.drop_eq_getElem_cons hjlt]
    rfl

theorem reconstructLines_same (lines : List (List Char)) (sL sC eC : Nat)
    (h : sL < lines.length) :
    reconstructLines lines sL sC sL eC = [(lines.getD sL []).drop sC] := by
  unfold reconstructLines
  have h1 : sL + 1 - sL = 1 := by omega
  rw [h1, List.range'_one, List.filterMap_cons]
  have hrow : reconRow lines sL sC sL eC sL = some ((lines.getD sL []).drop sC) := by
    unfold reconRow
    rw [if_pos rfl, List.get?_eq_getElem?, List.getElem?_eq_getElem h, getD_eq_get lines sL h]
    simp [List.get_eq_getElem]
  rw [hrow]
  rfl

theorem reconstructLines_multi (lines : List (List Char)) (sL sC eL eC : Nat)
    (hse : sL < eL) (heL : eL < lines.length) (heC : eC ≤ (lines.getD eL []).length) :
    reconstructLines lines sL sC eL eC =
      (lines.getD sL []).drop sC ::
        ((lines.drop (sL + 1)).take (eL - (sL + 1)) ++ [(lines.getD eL []).take eC]) := by
  unfold reconstructLines
  have hsl : sL < lines.length := by omega
  have hn : eL + 1 - sL = ((eL - (sL + 1)) + 1) + 1 := by omega
  rw [hn, List.range'_succ, List.filterMap_cons]
  have hrow0 : reconRow lines sL sC eL eC sL = some ((lines.getD sL []).drop sC) := by
    unfold reconRow
    rw [if_pos rfl, List.get?_eq_getElem?, List.getElem?_eq_getElem hsl, getD_eq_get lines sL hsl]
    simp [List.get_eq_getElem]
  rw [hrow0]
  have hsplit : List.range' (sL + 1) ((eL - (sL + 1)) + 1) =
      List.range' (sL + 1) (eL - (sL + 1)) ++ [eL] := by
    have happ := List.range'_append (sL + 1) (eL - (sL + 1)) 1 1
    have h1 : sL + 1 + 1 * (eL - (sL + 1)) = eL := by omega
    have h2 : 1 + (eL - (sL + 1)) = (eL - (sL + 1)) + 1 := by omega
    rw [h1, h2] at happ
    rw [← happ, List.range'_one]
  rw [hsplit, List.filterMap_append]
  rw [range'_filterMap_mid lines sL sC eL eC (eL - (sL + 1)) (sL + 1) (by omega) (by omega)
    (by omega)]
  have hrowE : reconRow lines sL sC eL eC eL = some ((lines.getD eL []).take eC) := by
    unfold reconRow
    rw [if_neg (by omega), if_pos rfl, List.get?_eq_getElem?, List.getElem?_eq_getElem heL,
      getD_eq_get lines eL heL]
    rw [getD_eq_get lines eL heL, List.get_eq_getElem] at heC
    simp [List.get_eq_getElem, heC]
  simp [hrowE]

/-! ## Claim theorems -/

theorem char_illegal_iff (c : Char) : isIllegalChar c = strippedSpec c := by
  rw [Bool.eq_iff_iff]
  simp only [isIllegalChar, strippedSpec, Bool.or_eq_true, Bool.and_eq_true,
    Bool.not_eq_true', Bool.or_eq_false_iff, decide_eq_true_eq, decide_eq_false_iff_not]
  omega

/-- C1 (code bug): on a scanned line containing an inline block comment
(`/* ... */` with the opener first, flag clear), the code keeps nothing from
the line and leaves the in-comment flag set, so the following lines are
dropped until a closer appears; the spec's inline special case (source lines
112-119) never executes.  Here the body extracted from
`{ / a(); /* x */ b(); / c(); / }` is just the opening-brace line. -/
theorem C1_inline_comment_eval :
    getMethodBody [['\x7b'], ("a(); /* x */ b();".data), ("c();".data), ['\x7d']]
      (some (1, 1)) = ['\x7b'] ∧
    (processLine false ("a(); /* x */ b();".data)).1 = [] ∧
    (processLine false ("a(); /* x */ b();".data)).2 = true := by
  decide

/-- C2 (amended): for the body scan of any source, whenever the scan stops
via the brace check the running counter is exactly zero at that line; the
final counter always equals the sum of the brace deltas of the counted
(non-comment) kept lines, so those balance to zero at such a stop — kept
CJK-comment lines are not counted; and the scan never reads past the end of
the source lines. -/
theorem C2_brace_termination (lines : List (List Char)) (pos : Option (Nat × Nat)) :
    ((bodyLoop (lines.drop (startLineIdx pos)) false false 0).stopped = true →
      (bodyLoop (lines.drop (startLineIdx pos)) false false 0).finalCount = 0) ∧
    (bodyLoop (lines.drop (startLineIdx pos)) false false 0).finalCount =
      lineDelta (bodyLoop (lines.drop (startLineIdx pos)) false false 0).kept ∧
    (bodyLoop (lines.drop (startLineIdx pos)) false false 0).consumed ≤
      (lines.drop (startLineIdx pos)).length := by
  refine ⟨bodyLoop_stopped_zero _ _ _ _, ?_, bodyLoop_consumed_le _ _ _ _⟩
  have h := bodyLoop_finalCount (lines.drop (startLineIdx pos)) false false 0
  simpa using h

/-- Witness for C2 at the two-line body `{` / `}`: the scan stops with the
counter at zero, having consumed both lines. -/
theorem C2_brace_termination_witness :
    (bodyLoop [['\x7b'], ['\x7d']] false false 0).finalCount = 0 ∧
    (bodyLoop [['\x7b'], ['\x7d']] false false 0).consumed ≤ 2 := by
  have h := C2_brace_termination [['\x7b'], ['\x7d']] none
  constructor
  · have h1 := h.1 (by decide)
    simpa using h1
  · have h2 := h.2.2
    simpa using h2

/-- C2 counterexample: a well-formed method body preceded by a CJK `//`
comment line containing a `{`: the scan stops at that comment line although
the brace counter was never opened, and the kept (included) lines have
literal cumulative brace delta 1, not 0. -/
theorem C2_comment_brace_cex :
    (bodyLoop [("void f()".data), ("// 注 \x7b".data), ['\x7b'], ['\x7d']]
      false false 0).stopped = true ∧
    ((bodyLoop [("void f()".data), ("// 注 \x7b".data), ['\x7b'], ['\x7d']]
      false false 0).kept.map (fun p => braceDelta p.1)).sum = 1 ∧
    getMethodBody [("void f()".data), ("// 注 \x7b".data), ['\x7b'], ['\x7d']]
      (some (1, 1)) = ("// 注 \x7b".data) := by
  decide

/-- C3 (amended): a scanned body line containing no block-comment marker,
processed with the in-comment flag clear, whose trimmed form starts with
`//`, is kept verbatim (uncounted) iff its comment text contains a character
in the CJK Unified Ideographs range U+4E00..U+9FFF, and dropped otherwise. -/
theorem C3_cjk_keep (line : List Char) (hO : findSub slashStar line = none)
    (hC : findSub starSlash line = none)
    (hP : slashSlash.isPrefixOf (pyStrip line) = true) :
    processLine false line =
      (if hasCJK (pyStrip ((pyStrip line).drop 2)) then [(line, false)] else [], false) := by
  rw [processLine_eq_keep]
  have h1 : truncOpen false line = (line, false) := by
    unfold truncOpen
    rw [hO]
  have h2 : truncClose (line, false) = (line, false) := by
    unfold truncClose
    simp [hC]
  rw [h1, h2]
  unfold keepStep
  rw [if_neg (by simp), if_pos hP]

/-- Witness for C3 at the comment line `// 中文`: kept verbatim and not
counted. -/
theorem C3_cjk_keep_witness :
    processLine false ("// 中文".data) = ([(("// 中文".data), false)], false) := by
  have h := C3_cjk_keep ("// 中文".data) (by decide) (by decide) (by decide)
  rw [if_pos (by decide)] at h
  exact h

/-- C3 counterexample: the comment line `// 한국` contains Korean (Hangul)
characters — CJK by the spec's definition — yet the code's U+4E00..U+9FFF
test rejects it and the line is excluded from the extracted body. -/
theorem C3_hangul_cex :
    ("// 한국".data).any cjkSpecChar = true ∧
    hasCJK (pyStrip ((pyStrip ("// 한국".data)).drop 2)) = false ∧
    getMethodBody [['\x7b'], ("// 한국".data), ['\x7d']] (some (1, 1)) =
      ['\x7b', '\n', '\x7d'] := by
  decide

/-- C4 (amended): when no line at or after the method's start line contains
`{`, the body scan never starts and the extracted body is empty. -/
theorem C4_no_open_brace_empty (lines : List (List Char)) (pos : Option (Nat × Nat))
    (h : ∀ l ∈ lines.drop (startLineIdx pos), l.contains '\x7b' = false) :
    getMethodBody lines pos = [] := by
  unfold getMethodBody
  rw [bodyLoop_no_open_brace _ h false 0]
  rfl

/-- Witness for C4: an abstract method line followed only by the closing
brace of its interface yields an empty body. -/
theorem C4_no_open_brace_empty_witness :
    getMethodBody [("void qux();".data), ("end".data)] (some (1, 1)) = [] :=
  C4_no_open_brace_empty [("void qux();".data), ("end".data)] (some (1, 1)) (by decide)

/-- C4 counterexample: a bodiless method whose following line (a different
method) contains `{` does start the scan, and the extracted body is that
later line, not the empty string. -/
theorem C4_following_brace_cex :
    getMethodBody [("void qux();".data), ("int f() \x7b return 1; \x7d".data)]
      (some (1, 1)) = ("int f() \x7b return 1; \x7d".data) ∧
    ("int f() \x7b return 1; \x7d".data) ≠ ([] : List Char) := by
  decide

/-- C8: both writers pass every text block through the same
`remove_illegal_characters`, and that function strips exactly the control
characters \x00-\x1F other than tab, LF and CR, together with \x7F, leaving
all other characters unchanged. -/
theorem C8_control_char_stripping :
    (∀ results, csvRows results = excelCells results) ∧
    (∀ s, remove_illegal_characters s = s.filter (fun c => !(strippedSpec c))) := by
  constructor
  · intro results
    rfl
  · intro s
    unfold remove_illegal_characters
    exact List.filter_congr (fun c _ => by rw [char_illegal_iff])

/-- C10: `remove_illegal_characters` is idempotent, and acts as the identity
on any string containing none of the stripped characters. -/
theorem C10_remove_illegal_idempotent (s : List Char) :
    remove_illegal_characters (remove_illegal_characters s) = remove_illegal_characters s ∧
    ((∀ c ∈ s, isIllegalChar c = false) → remove_illegal_characters s = s) := by
  constructor
  · unfold remove_illegal_characters
    rw [List.filter_filter]
    exact List.filter_congr (fun c _ => by cases isIllegalChar c <;> rfl)
  · intro h
    unfold remove_illegal_characters
    rw [List.filter_eq_self]
    intro a ha
    simp [h a ha]

/-- Witness for C10 on a clean string: the cleaner leaves it unchanged. -/
theorem C10_remove_illegal_idempotent_witness :
    remove_illegal_characters ("ab".data) = ("ab".data) :=
  (C10_remove_illegal_idempotent ("ab".data)).2 (by decide)

/-- C5 (amended): the declaration span is reconstructed as the tail of the
start line from the start column, all full intervening lines, and the head of
the end line up to the end column, whenever the end line lies strictly after
the start line; but when the end line equals the start line the result is the
whole tail of the start line from the start column — the end column is
ignored. -/
theorem C5_reconstruction (lines : List (List Char)) (sL sC eL eC : Nat)
    (hsl : sL < lines.length) :
    (sL < eL → eL < lines.length → eC ≤ (lines.getD eL []).length →
      reconstructLines lines sL sC eL eC =
        (lines.getD sL []).drop sC ::
          ((lines.drop (sL + 1)).take (eL - (sL + 1)) ++ [(lines.getD eL []).take eC])) ∧
    reconstructLines lines sL sC sL eC = [(lines.getD sL []).drop sC] :=
  ⟨fun h1 h2 h3 => reconstructLines_multi lines sL sC eL eC h1 h2 h3,
    reconstructLines_same lines sL sC eC hsl⟩

/-- Witness for C5 on a two-line source with the end position on the second
line. -/
theorem C5_reconstruction_witness :
    reconstructLines [("ab".data), ("cd".data)] 0 1 1 1 =
      ([("ab".data), ("cd".data)].getD 0 []).drop 1 ::
        (([("ab".data), ("cd".data)].drop 1).take (1 - (0 + 1)) ++
          [([("ab".data), ("cd".data)].getD 1 []).take 1]) :=
  (C5_reconstruction [("ab".data), ("cd".data)] 0 1 1 1 (by decide)).1 (by omega) (by decide)
    (by decide)

/-- C5 counterexample: when the matcher finishes on the start line itself
(here after matching `abc` at column 3), the returned span is the whole rest
of the line `abc def`, not the head up to the final matched column. -/
theorem C5_same_line_cex :
    getMethodDeclaration [("abc def".data)] (some (1, 1)) ("abc".data) =
      Except.ok ("abc def".data) ∧
    declScanLoop [("abc def".data)] ("abc".data) 0 0 0 = Except.ok (0, 3) ∧
    ("abc def".data) ≠ ("abc def".data).take 3 := by
  have hps : pyStrip ("abc".data) = ("abc".data) := by decide
  have h0 : startLineIdx (some (1, 1)) = 0 := by decide
  have h1 : startColIdx (some (1, 1)) = 0 := by decide
  have hscan : declScanLoop [("abc def".data)] ("abc".data) 0 0 0 = Except.ok (0, 3) := by
    simp +decide [declScanLoop]
  refine ⟨?_, hscan, by decide⟩
  unfold getMethodDeclaration
  rw [hps, h0, h1, hscan]
  rfl

/-- C6 (amended): the declaration scan succeeds (never raises) whenever the
start line lies within the split source lines; body extraction is total, and
a start position at or past the end of file yields an empty body; an absent
position defaults to the first line and column for both extractors.  (The
in-bounds proviso is necessary: see the counterexample.) -/
theorem C6_no_raise_in_bounds :
    (∀ (lines : List (List Char)) (decl : List Char) (sL sC i : Nat), sL < lines.length →
      ∃ p, declScanLoop lines decl sL sC i = Except.ok p) ∧
    (∀ lines pos, lines.length ≤ startLineIdx pos → getMethodBody lines pos = []) ∧
    (∀ lines, getMethodBody lines none = getMethodBody lines (some (1, 1))) ∧
    (∀ lines declStr, getMethodDeclaration lines none declStr =
      getMethodDeclaration lines (some (1, 1)) declStr) := by
  refine ⟨?_, ?_, ?_, ?_⟩
  · intro lines decl sL sC i h
    exact declScanLoop_ok lines decl sL sC i h
  · intro lines pos h
    unfold getMethodBody
    rw [List.drop_eq_nil_of_le h]
    rfl
  · intro lines
    rfl
  · intro lines declStr
    rfl

/-- Witness for C6: an in-bounds scan returns a result, and a start line past
end of file yields an empty body. -/
theorem C6_no_raise_in_bounds_witness :
    (∃ p, declScanLoop [("a".data)] ("b".data) 0 0 0 = Except.ok p) ∧
    getMethodBody [("a".data)] (some (5, 1)) = [] :=
  ⟨C6_no_raise_in_bounds.1 [("a".data)] ("b".data) 0 0 0 (by decide),
    C6_no_raise_in_bounds.2.1 [("a".data)] (some (5, 1)) (by decide)⟩

/-- C6 counterexample: a start line past the end of file with a non-empty
rendered declaration string makes the declaration scan fail (the Python code
raises `IndexError` on `lines[end_line]`). -/
theorem C6_past_eof_error_cex :
    getMethodDeclaration [("a".data)] (some (4, 1)) ("x".data) = Except.error () := by
  have hps : pyStrip ("x".data) = ("x".data) := by decide
  have h0 : startLineIdx (some (4, 1)) = 3 := by decide
  have h1 : startColIdx (some (4, 1)) = 0 := by decide
  have hscan : declScanLoop [("a".data)] ("x".data) 3 0 0 = Except.error () := by
    rw [declScanLoop]
    norm_num
  unfold getMethodDeclaration
  rw [hps, h0, h1, hscan]

/-- C7 (amended): a scanned line that (after the opener-truncation step, here
vacuous since the line has no `/*`) contains the closer `*/` is truncated to
the text after the closer and the flag is cleared regardless of the flag's
prior value; the kept remainder — not the whole line — is what the keep/count
step then processes. -/
theorem C7_closer_truncates (inC : Bool) (line : List Char) (j : Nat)
    (hO : findSub slashStar line = none) (hC : findSub starSlash line = some j) :
    processLine inC line = (keepStep false (line.drop (j + 2)), false) := by
  rw [processLine_eq_keep]
  have h1 : truncOpen inC line = (line, inC) := by
    unfold truncOpen
    rw [hO]
  rw [h1]
  have h2 : truncClose (line, inC) = (line.drop (j + 2), false) := by
    unfold truncClose
    simp [hC]
  rw [h2]

/-- Witness for C7 at the line `x = "*/"; {` with the flag clear: the closer
inside the string literal is honoured and the line is truncated at it. -/
theorem C7_closer_truncates_witness :
    processLine false ("x = \"*/\"; \x7b".data) =
      (keepStep false (("x = \"*/\"; \x7b".data).drop 7), false) :=
  C7_closer_truncates false ("x = \"*/\"; \x7b".data) 5 (by decide) (by decide)

/-- C7 counterexample: with the flag false, the line `x = "*/"; {` is not
processed whole as the claim states: only the remainder after the closer is
kept (and counted), as the full extraction on a four-line method shows. -/
theorem C7_closer_without_flag_cex :
    (processLine false ("x = \"*/\"; \x7b".data)).1 =
      [((("x = \"*/\"; \x7b".data).drop 7), true)] ∧
    (("x = \"*/\"; \x7b".data).drop 7) ≠ ("x = \"*/\"; \x7b".data) ∧
    getMethodBody [("f() \x7b".data), ("x = \"*/\"; \x7b".data), ['\x7d'], ['\x7d']]
      (some (1, 1)) = ("f() \x7b\n\"; \x7b\n\x7d\n\x7d".data) := by
  decide

/-- C9 (amended): for an end position strictly after the start line, the
reconstructed span's first line is the tail of the start line from the start
column, each middle line equals the corresponding full source line, and the
last line is a prefix (the take up to the end column) of the end source line;
when the scan ends on the start line the single output line is the tail of
the start line (a suffix, not in general a prefix); and the end cursor of the
scan never moves backward from the start position. -/
theorem C9_span_invariant (lines : List (List Char)) (sL sC eL eC : Nat) :
    (sL < eL → eL < lines.length → eC ≤ (lines.getD eL []).length →
      ((reconstructLines lines sL sC eL eC).head? = some ((lines.getD sL []).drop sC) ∧
       (∀ k, k < eL - (sL + 1) →
          (reconstructLines lines sL sC eL eC).get? (k + 1) = lines.get? (sL + 1 + k)) ∧
       (reconstructLines lines sL sC eL eC).getLast? = some ((lines.getD eL []).take eC) ∧
       ((lines.getD eL []).take eC).isPrefixOf (lines.getD eL []) = true)) ∧
    (sL < lines.length → reconstructLines lines sL sC sL eC = [(lines.getD sL []).drop sC]) ∧
    (∀ decl i rL rC, declScanLoop lines decl sL sC i = Except.ok (rL, rC) →
      sL < rL ∨ (sL = rL ∧ sC ≤ rC)) := by
  refine ⟨?_, ?_, ?_⟩
  · intro h1 h2 h3
    rw [reconstructLines_multi lines sL sC eL eC h1 h2 h3]
    refine ⟨rfl, ?_, ?_, ?_⟩
    · intro k hk
      rw [List.get?_cons_succ]
      have hlen : ((lines.drop (sL + 1)).take (eL - (sL + 1))).length = eL - (sL + 1) := by
        rw [List.length_take, List.length_drop]
        omega
      rw [List.get?_append (by omega)]
      rw [List.get?_take (by omega), List.get?_drop]
    · rw [show (lines.getD sL []).drop sC ::
          ((lines.drop (sL + 1)).take (eL - (sL + 1)) ++ [(lines.getD eL []).take eC]) =
          ((lines.getD sL []).drop sC :: (lines.drop (sL + 1)).take (eL - (sL + 1))) ++
            [(lines.getD eL []).take eC] from rfl]
      exact List.getLast?_concat _
    · exact List.isPrefixOf_iff_prefix.mpr (List.take_prefix _ _)
  · intro h
    exact reconstructLines_same lines sL sC eC h
  · intro decl i rL rC h
    exact declScanLoop_mono lines decl sL sC i rL rC h

/-- Witness for C9 on a two-line source: the last output line is the prefix
take of the end line, and the scan cursor moved forward. -/
theorem C9_span_invariant_witness :
    (reconstructLines [("pq".data), ("rs".data)] 0 1 1 1).getLast? =
      some (([("pq".data), ("rs".data)].getD 1 []).take 1) ∧
    (0 < 0 ∨ (0 = 0 ∧ (1 : Nat) ≤ 2)) := by
  have h := C9_span_invariant [("pq".data), ("rs".data)] 0 1 1 1
  have hse : (0 : Nat) < 1 := by omega
  have heL : 1 < [("pq".data), ("rs".data)].length := by decide
  have heC : 1 ≤ ([("pq".data), ("rs".data)].getD 1 []).length := by decide
  have hmulti := h.1 hse heL heC
  have hscan : declScanLoop [("pq".data), ("rs".data)] ("q".data) 0 1 0 =
      Except.ok (0, 2) := by
    simp +decide [declScanLoop]
  exact ⟨hmulti.2.2.1, h.2.2 ("q".data) 0 0 2 hscan⟩

/-- C9 counterexample: a scan ending on the start line at column 3 of
`abc d`, started at column 2, returns `c d` — a suffix of the source line,
not a prefix of it, contradicting the claim's last-line-is-a-prefix shape. -/
theorem C9_suffix_not_prefix_cex :
    getMethodDeclaration [("abc d".data)] (some (1, 3)) ("c".data) =
      Except.ok ("c d".data) ∧
    ("c d".data).isPrefixOf ("abc d".data) = false := by
  have hps : pyStrip ("c".data) = ("c".data) := by decide
  have h0 : startLineIdx (some (1, 3)) = 0 := by decide
  have h1 : startColIdx (some (1, 3)) = 2 := by decide
  have hscan : declScanLoop [("abc d".data)] ("c".data) 0 2 0 = Except.ok (0, 3) := by
    simp +decide [declScanLoop]
  refine ⟨?_, by decide⟩
  unfold getMethodDeclaration
  rw [hps, h0, h1, hscan]
  rfl
